import Mathlib

/-
Verification of the reading-logs batch parser (main.go).

The program is a single-threaded batch loop: scan a directory for images,
skip files already recorded in a checkpoint file, convert HEIC files to
JPEG via an external utility, send each image to an extraction service,
record each outcome in the checkpoint, and export all completed records
to CSV.  The external collaborators (directory listing, sips conversion,
base64 encoding plus file read, the extraction API call, and the
checkpoint write) are modelled as oracles supplied in an `Env`; the
orchestration logic, the checkpoint store, and the CSV formatting are
translated directly from the Go source.
-/

namespace RLP

/-- A single day's reading time, mirroring Go struct `ReadingEntry`
(fields Day, Date, Minutes; Minutes is a Go `int`, modelled as `Int`). -/
structure ReadingEntry where
  Day : String
  Date : String
  Minutes : Int
deriving DecidableEq

/-- Structured data extracted from one reading-log image, mirroring Go
struct `ReadingLog`. -/
structure ReadingLog where
  FullName : String
  Grade : String
  HomeroomTeacher : String
  ReadingEntries : List ReadingEntry
deriving DecidableEq

/-- Go map lookup `m[k]` on an association-list model of a Go map. -/
def lookupKey {α : Type} : List (String × α) → String → Option α
  | [], _ => none
  | (k, v) :: rest, key => if k = key then some v else lookupKey rest key

/-- Go map insertion `m[k] = v`: overwrite the existing binding in place,
otherwise append a new one. -/
def insertKey {α : Type} : List (String × α) → String → α → List (String × α)
  | [], key, v => [(key, v)]
  | (k, w) :: rest, key, v =>
      if k = key then (k, v) :: rest else (k, w) :: insertKey rest key v

/-- Go map deletion `delete(m, k)`. -/
def eraseKey {α : Type} : List (String × α) → String → List (String × α)
  | [], _ => []
  | (k, w) :: rest, key =>
      if k = key then eraseKey rest key else (k, w) :: eraseKey rest key

/-- Checkpoint state, mirroring Go struct `Progress` after
`loadProgress` has guaranteed both maps are initialized (non-nil). -/
structure Progress where
  completed : List (String × ReadingLog)
  errors : List (String × String)
deriving DecidableEq

/-- Go `filepath.Base`: the final path element (characters after the
last slash). -/
def pathBase (p : String) : String :=
  String.mk ((p.data.reverse.takeWhile (fun c => c != '/')).reverse)

/-- Go `filepath.Ext`: the suffix of the base name beginning at its
final dot, or the empty string if the base name has no dot. -/
def pathExt (p : String) : String :=
  let b := (pathBase p).data
  if b.contains '.' then
    String.mk ('.' :: (b.reverse.takeWhile (fun c => c != '.')).reverse)
  else ""

/-- ASCII-adequate model of Go `strings.ToLower`. -/
def lowerStr (s : String) : String :=
  String.mk (s.data.map Char.toLower)

/-- Go `isHEIC`: true when the lowercased extension is ".heic". -/
def isHEIC (p : String) : Bool :=
  lowerStr (pathExt p) == ".heic"

/-- Checkpoint file content as seen by `loadProgress`: the JSON fields
of Go struct `Progress`, where `none` models a field that is absent or
JSON `null` (for both of which `json.Unmarshal` into an existing map is
a no-op). -/
structure ParsedProgress where
  completedField : Option (List (String × ReadingLog))
  errorsField : Option (List (String × String))
deriving DecidableEq

/-- The three observable classes of checkpoint-file content:
`os.ReadFile` fails, `json.Unmarshal` fails, or the file parses. -/
inductive FileContent where
  | absent
  | unparsable
  | parsed (pp : ParsedProgress)
deriving DecidableEq

/-- Go-level checkpoint state: `none` models a nil Go map (into which an
insertion would panic). -/
structure GoProgress where
  completed : Option (List (String × ReadingLog))
  errors : Option (List (String × String))
deriving DecidableEq

/-- The fresh state built at the top of Go `loadProgress`: both maps
allocated and empty. -/
def freshProgressGo : GoProgress := ⟨some [], some []⟩

/-- Go `loadProgress`, with the Bool recording whether the parse warning
was printed.  On a read error the fresh state is returned silently; on a
parse error a fresh state is returned with a warning; otherwise
`json.Unmarshal` merges the parsed fields into the fresh state's empty
maps (an absent or null field leaves the allocated empty map in place). -/
def loadProgressGo : FileContent → GoProgress × Bool
  | FileContent.absent => (freshProgressGo, false)
  | FileContent.unparsable => (freshProgressGo, true)
  | FileContent.parsed pp =>
      (⟨some (pp.completedField.getD []), some (pp.errorsField.getD [])⟩, false)

/-- Insertion into a possibly-nil Go map: `none` (a panic) when the map
is nil, otherwise the updated map. -/
def goMapInsert {α : Type} : Option (List (String × α)) → String → α → Option (List (String × α))
  | none, _, _ => none
  | some l, k, v => some (insertKey l k v)

/-- The checkpoint state the orchestrator works with: `loadProgressGo`
always yields initialized maps, so the Go-level options can be erased. -/
def loadProgress (c : FileContent) : Progress :=
  ⟨((loadProgressGo c).1.completed).getD [], ((loadProgressGo c).1.errors).getD []⟩

/-- The CSV header row written by Go `writeCSV`. -/
def csvHeader : List String :=
  ["Full Name", "Grade", "Homeroom Teacher",
   "Friday 1/30", "Saturday 1/31", "Sunday 2/1",
   "Monday 2/2", "Tuesday 2/3", "Wednesday 2/4", "Thursday 2/5",
   "Total Minutes"]

/-- Go `formatMinutes`: the minutes of the first entry whose date
matches, rendered in decimal when positive and as the empty string
otherwise; the empty string when no entry matches. -/
def formatMinutes : List ReadingEntry → String → String
  | [], _ => ""
  | e :: rest, date =>
      if e.Date = date then
        (if e.Minutes > 0 then toString e.Minutes else "")
      else formatMinutes rest date

/-- The running total computed at the top of each `writeCSV` row
(`total += e.Minutes` over all entries). -/
def sumMinutes (entries : List ReadingEntry) : Int :=
  entries.foldl (fun acc e => acc + e.Minutes) 0

/-- One data row of Go `writeCSV`. -/
def csvRow (log : ReadingLog) : List String :=
  [log.FullName, log.Grade, log.HomeroomTeacher,
   formatMinutes log.ReadingEntries "1/30",
   formatMinutes log.ReadingEntries "1/31",
   formatMinutes log.ReadingEntries "2/1",
   formatMinutes log.ReadingEntries "2/2",
   formatMinutes log.ReadingEntries "2/3",
   formatMinutes log.ReadingEntries "2/4",
   formatMinutes log.ReadingEntries "2/5",
   toString (sumMinutes log.ReadingEntries)]

/-- The full table written by Go `writeCSV`: header row then one row per
record. -/
def csvTable (logs : List ReadingLog) : List (List String) :=
  csvHeader :: logs.map csvRow

/-- Oracles for the external collaborators of the loop in `main`:
`convert` is `convertHEICtoJPEG` (temp JPEG path or error; on its own
failure it already removed its temp file), `encode` is `encodeImage`
(media type and base64 data or error), `extract` is `parseReadingLog`,
and `saveOk n` tells whether the n-th `saveProgress` call of the run
succeeds. -/
structure Env where
  convert : String → Except String String
  encode : String → Except String (String × String)
  extract : String → String → Except String ReadingLog
  saveOk : Nat → Bool

/-- Console output of the loop body that the claims talk about. -/
inductive Event where
  | printProgress (baseName : String)
  | printError (baseName msg : String)
  | warnSaveFail
  | printResult (log : ReadingLog)
deriving DecidableEq

/-- State threaded through the loop in `main`.  `progress` is the
in-memory checkpoint, `disk` the state last written by a successful
`saveProgress`; `tempsCreated` are temp files produced by successful
conversions, `tempsRemoved` the files actually removed during the loop
body, and `deferredRemoves` the `defer os.Remove` calls registered
inside the loop (they run only when `main` returns, not per iteration,
and never on an `os.Exit` path). -/
structure LoopState where
  progress : Progress
  disk : Progress
  succeeded : Nat
  failed : Nat
  saveCount : Nat
  convertCalls : Nat
  extractCalls : Nat
  events : List Event
  tempsCreated : List String
  tempsRemoved : List String
  deferredRemoves : List String
deriving DecidableEq

/-- The loop state at the top of `main`'s loop, for a loaded checkpoint
whose content `p` is also what is on disk. -/
def initLoopState (p : Progress) : LoopState :=
  ⟨p, p, 0, 0, 0, 0, 0, [], [], [], []⟩

/-- Append one console event. -/
def addEvent (s : LoopState) (e : Event) : LoopState :=
  { s with events := s.events ++ [e] }

/-- Record a successful conversion's temp file: it exists from now on,
and its removal is deferred to `main`'s return. -/
def noteTemp (s : LoopState) (path : String) : LoopState :=
  { s with tempsCreated := s.tempsCreated ++ [path],
           deferredRemoves := s.deferredRemoves ++ [path] }

/-- One error branch of the loop body: `printError`, record the message
in `errors`, call `saveProgress` with its result discarded, bump
`failed`, and continue. -/
def recordFailure (env : Env) (s : LoopState) (baseName msg : String) : LoopState :=
  let p : Progress :=
    { completed := s.progress.completed,
      errors := insertKey s.progress.errors baseName msg }
  { s with
    progress := p
    disk := if env.saveOk s.saveCount then p else s.disk
    saveCount := s.saveCount + 1
    failed := s.failed + 1
    events := s.events ++ [Event.printError baseName msg] }

/-- The success tail of the loop body: insert the record into
`completed`, delete any stale `errors` entry, call `saveProgress`
(warning on failure), `printResult`, and bump `succeeded`. -/
def recordSuccess (env : Env) (s : LoopState) (baseName : String) (log : ReadingLog) : LoopState :=
  let p : Progress :=
    { completed := insertKey s.progress.completed baseName log,
      errors := eraseKey s.progress.errors baseName }
  { s with
    progress := p
    disk := if env.saveOk s.saveCount then p else s.disk
    saveCount := s.saveCount + 1
    succeeded := s.succeeded + 1
    events := s.events ++
      (if env.saveOk s.saveCount then [] else [Event.warnSaveFail]) ++
      [Event.printResult log] }

/-- The loop body from `encodeImage` onwards, shared by the HEIC and
non-HEIC paths. -/
def afterNormalize (env : Env) (s : LoopState) (baseName processPath : String) : LoopState :=
  match env.encode processPath with
  | Except.error msg => recordFailure env s baseName msg
  | Except.ok me =>
      let s2 := { s with extractCalls := s.extractCalls + 1 }
      match env.extract me.1 me.2 with
      | Except.error msg => recordFailure env s2 baseName msg
      | Except.ok log => recordSuccess env s2 baseName log

/-- One iteration of the loop in `main` for one scanned path: skip if
the base name is in `completed`, else print progress, convert HEIC
files (registering a deferred removal of the temp file on success),
then encode and extract. -/
def processFile (env : Env) (s : LoopState) (imgPath : String) : LoopState :=
  let baseName := pathBase imgPath
  if (lookupKey s.progress.completed baseName).isSome then s
  else
    let s1 := addEvent s (Event.printProgress baseName)
    if isHEIC imgPath then
      let s2 := { s1 with convertCalls := s1.convertCalls + 1 }
      match env.convert imgPath with
      | Except.error msg => recordFailure env s2 baseName msg
      | Except.ok jpgPath => afterNormalize env (noteTemp s2 jpgPath) baseName jpgPath
    else
      afterNormalize env s1 baseName imgPath

/-- The whole loop of `main` over the scanned image list. -/
def runLoop (env : Env) (s : LoopState) (images : List String) : LoopState :=
  images.foldl (processFile env) s

/-- Observable outcome of one invocation of `main`: the process exit
code, whether `writeCSV` was ever invoked, and which files have been
removed by the time the process ends (deferred removals run only on the
normal return path, in LIFO order; `os.Exit` skips them). -/
structure MainResult where
  exitCode : Nat
  csvAttempted : Bool
  removedAtExit : List String
deriving DecidableEq

/-- Go `main`: find images (exit 1 on a directory error or when none
are found), load the checkpoint, run the loop, exit 1 when `completed`
is empty after the loop (without attempting the CSV), exit 1 on a CSV
write failure, and exit 0 otherwise. -/
def mainRun (dirResult : Except String (List String)) (c : FileContent)
    (env : Env) (csvOk : Bool) : MainResult :=
  match dirResult with
  | Except.error _ => ⟨1, false, []⟩
  | Except.ok images =>
      if images.length = 0 then ⟨1, false, []⟩
      else
        let final := runLoop env (initLoopState (loadProgress c)) images
        if final.progress.completed.length = 0 then ⟨1, false, final.tempsRemoved⟩
        else if csvOk then ⟨0, true, final.tempsRemoved ++ final.deferredRemoves.reverse⟩
        else ⟨1, true, final.tempsRemoved⟩

/-- A sample extracted record used in concrete scenarios. -/
def logW : ReadingLog := ⟨"Stu Dent", "2nd", "Ms. T", [⟨"Friday", "1/30", 10⟩]⟩

/-- Oracles for a run in which conversion, encoding, extraction and
every checkpoint save succeed. -/
def envAllOk : Env :=
  ⟨fun p => Except.ok (p ++ ".tmp.jpg"),
   fun _ => Except.ok ("image/jpeg", "x"),
   fun _ _ => Except.ok logW,
   fun _ => true⟩

/-- Oracles for a run in which extraction fails on every file and every
checkpoint save also fails. -/
def envExtractFailSaveFail : Env :=
  ⟨fun p => Except.ok (p ++ ".tmp.jpg"),
   fun _ => Except.ok ("image/jpeg", "x"),
   fun _ _ => Except.error "boom",
   fun _ => false⟩

/-- A loaded checkpoint with one completed file and one prior error. -/
def progW : Progress := ⟨[("a.jpg", logW)], [("b.jpg", "boom")]⟩

/-- The loop state at startup for `progW`. -/
def stateW : LoopState := initLoopState progW

/-- Entry list with two entries sharing the date 1/30. -/
def entriesW : List ReadingEntry :=
  [⟨"Friday", "1/30", 10⟩, ⟨"Friday", "1/30", 20⟩]

/-- The first entry of `entriesW`. -/
def entryW : ReadingEntry := ⟨"Friday", "1/30", 10⟩

theorem lookupKey_insertKey_self {α : Type} (l : List (String × α)) (k : String) (v : α) :
    lookupKey (insertKey l k v) k = some v := by
  induction l with
  | nil => simp [insertKey, lookupKey]
  | cons kv rest ih =>
      by_cases h : kv.1 = k
      · simp [insertKey, h, lookupKey]
      · simp [insertKey, h, lookupKey, ih]

theorem lookupKey_insertKey_isSome {α : Type} (l : List (String × α)) (k k' : String) (v : α)
    (h : (lookupKey l k).isSome = true) :
    (lookupKey (insertKey l k' v) k).isSome = true := by
  induction l with
  | nil => simp [lookupKey] at h
  | cons kv rest ih =>
      obtain ⟨k0, w0⟩ := kv
      by_cases hk : k0 = k'
      · subst hk
        by_cases hkk : k0 = k
        · simp [insertKey, lookupKey, hkk]
        · simp [lookupKey, hkk] at h
          simp [insertKey, lookupKey, hkk, h]
      · by_cases hkk : k0 = k
        · subst hkk
          simp [insertKey, hk, lookupKey]
        · simp [lookupKey, hkk] at h
          simp [insertKey, hk, lookupKey, hkk, ih h]

theorem lookupKey_eraseKey_self {α : Type} (l : List (String × α)) (k : String) :
    lookupKey (eraseKey l k) k = none := by
  induction l with
  | nil => rfl
  | cons kv rest ih =>
      by_cases h : kv.1 = k
      · simp [eraseKey, h, ih]
      · simp [eraseKey, h, lookupKey, ih]

theorem foldl_add_minutes (l : List ReadingEntry) (a : Int) :
    l.foldl (fun acc e => acc + e.Minutes) a = a + (l.map (fun e => e.Minutes)).sum := by
  induction l generalizing a with
  | nil => simp
  | cons e rest ih =>
      simp only [List.foldl_cons, List.map_cons, List.sum_cons, ih]
      ring

theorem runLoop_nil (env : Env) (s : LoopState) : runLoop env s [] = s := rfl

theorem runLoop_cons (env : Env) (s : LoopState) (img : String) (rest : List String) :
    runLoop env s (img :: rest) = runLoop env (processFile env s img) rest := rfl

theorem processFile_skip (env : Env) (s : LoopState) (img : String)
    (h : (lookupKey s.progress.completed (pathBase img)).isSome = true) :
    processFile env s img = s := by
  simp [processFile, h]

theorem afterNormalize_cases (env : Env) (s : LoopState) (b pp : String) :
    (∃ s' msg, afterNormalize env s b pp = recordFailure env s' b msg
        ∧ s'.progress = s.progress ∧ s'.events = s.events)
    ∨ (∃ s' lg, afterNormalize env s b pp = recordSuccess env s' b lg
        ∧ s'.progress = s.progress ∧ s'.events = s.events) := by
  cases henc : env.encode pp with
  | error msg => exact Or.inl ⟨s, msg, by simp [afterNormalize, henc], rfl, rfl⟩
  | ok me =>
      cases hext : env.extract me.1 me.2 with
      | error msg =>
          exact Or.inl ⟨{ s with extractCalls := s.extractCalls + 1 }, msg,
            by simp [afterNormalize, henc, hext], rfl, rfl⟩
      | ok lg =>
          exact Or.inr ⟨{ s with extractCalls := s.extractCalls + 1 }, lg,
            by simp [afterNormalize, henc, hext], rfl, rfl⟩

theorem processFile_cases (env : Env) (s : LoopState) (img : String) :
    ((lookupKey s.progress.completed (pathBase img)).isSome = true ∧ processFile env s img = s)
    ∨ (∃ s' msg, processFile env s img = recordFailure env s' (pathBase img) msg
        ∧ s'.progress = s.progress
        ∧ s'.events = s.events ++ [Event.printProgress (pathBase img)])
    ∨ (∃ s' lg, processFile env s img = recordSuccess env s' (pathBase img) lg
        ∧ s'.progress = s.progress
        ∧ s'.events = s.events ++ [Event.printProgress (pathBase img)]) := by
  by_cases h : (lookupKey s.progress.completed (pathBase img)).isSome = true
  · exact Or.inl ⟨h, processFile_skip env s img h⟩
  · have hstep : processFile env s img =
        (if isHEIC img then
          let s2 := { addEvent s (Event.printProgress (pathBase img)) with
                        convertCalls := (addEvent s (Event.printProgress (pathBase img))).convertCalls + 1 }
          match env.convert img with
          | Except.error msg => recordFailure env s2 (pathBase img) msg
          | Except.ok jpgPath => afterNormalize env (noteTemp s2 jpgPath) (pathBase img) jpgPath
        else afterNormalize env (addEvent s (Event.printProgress (pathBase img))) (pathBase img) img) := by
      simp [processFile, h]
    by_cases hh : isHEIC img = true
    · rw [hstep, if_pos hh]
      cases hc : env.convert img with
      | error msg => exact Or.inr (Or.inl ⟨_, msg, rfl, rfl, rfl⟩)
      | ok jpgPath =>
          rcases afterNormalize_cases env
              (noteTemp { addEvent s (Event.printProgress (pathBase img)) with
                convertCalls := (addEvent s (Event.printProgress (pathBase img))).convertCalls + 1 } jpgPath)
              (pathBase img) jpgPath with
            ⟨s', msg, heq, hp, hev⟩ | ⟨s', lg, heq, hp, hev⟩
          · exact Or.inr (Or.inl ⟨s', msg, heq, hp, hev⟩)
          · exact Or.inr (Or.inr ⟨s', lg, heq, hp, hev⟩)
    · have hh' : isHEIC img = false := by simpa using hh
      rw [hstep, hh']
      simp only [Bool.false_eq_true, if_false]
      rcases afterNormalize_cases env (addEvent s (Event.printProgress (pathBase img)))
          (pathBase img) img with ⟨s', msg, heq, hp, hev⟩ | ⟨s', lg, heq, hp, hev⟩
      · exact Or.inr (Or.inl ⟨s', msg, heq, hp, hev⟩)
      · exact Or.inr (Or.inr ⟨s', lg, heq, hp, hev⟩)

theorem processFile_completed_isSome (env : Env) (s : LoopState) (img : String) (k : String)
    (h : (lookupKey s.progress.completed k).isSome = true) :
    (lookupKey (processFile env s img).progress.completed k).isSome = true := by
  rcases processFile_cases env s img with ⟨_, hid⟩ | ⟨s', msg, heq, hp, _⟩ | ⟨s', lg, heq, hp, _⟩
  · rw [hid]; exact h
  · rw [heq]
    simpa [recordFailure, hp] using h
  · rw [heq]
    simp only [recordSuccess]
    exact lookupKey_insertKey_isSome _ _ _ _ (by rw [hp]; exact h)

theorem runLoop_completed_isSome (env : Env) (images : List String) (s : LoopState) (k : String)
    (h : (lookupKey s.progress.completed k).isSome = true) :
    (lookupKey (runLoop env s images).progress.completed k).isSome = true := by
  induction images generalizing s with
  | nil => exact h
  | cons i rest ih =>
      rw [runLoop_cons]
      exact ih _ (processFile_completed_isSome env s i k h)

theorem runLoop_skip_all (env : Env) (images : List String) (s : LoopState)
    (h : ∀ img ∈ images, (lookupKey s.progress.completed (pathBase img)).isSome = true) :
    runLoop env s images = s := by
  induction images with
  | nil => rfl
  | cons i rest ih =>
      rw [runLoop_cons, processFile_skip env s i (h i (by simp))]
      exact ih (fun img hm => h img (by simp [hm]))

theorem afterNormalize_success (env : Env) (s : LoopState) (b pp : String)
    (henc : ∀ p, ∃ r, env.encode p = Except.ok r)
    (hext : ∀ mt e, ∃ lg, env.extract mt e = Except.ok lg) :
    (lookupKey (afterNormalize env s b pp).progress.completed b).isSome = true := by
  obtain ⟨me, hme⟩ := henc pp
  obtain ⟨lg, hlg⟩ := hext me.1 me.2
  simp [afterNormalize, hme, hlg, recordSuccess, lookupKey_insertKey_self]

theorem processFile_success_completed (env : Env) (s : LoopState) (img : String)
    (hconv : ∀ p, ∃ q, env.convert p = Except.ok q)
    (henc : ∀ p, ∃ r, env.encode p = Except.ok r)
    (hext : ∀ mt e, ∃ lg, env.extract mt e = Except.ok lg) :
    (lookupKey (processFile env s img).progress.completed (pathBase img)).isSome = true := by
  by_cases h : (lookupKey s.progress.completed (pathBase img)).isSome = true
  · rw [processFile_skip env s img h]; exact h
  · obtain ⟨q, hq⟩ := hconv img
    by_cases hh : isHEIC img = true
    · simp only [processFile, h, Bool.false_eq_true, if_false, hh, if_true, hq]
      exact afterNormalize_success env _ _ _ henc hext
    · have hh' : isHEIC img = false := by simpa using hh
      simp only [processFile, h, Bool.false_eq_true, if_false, hh']
      exact afterNormalize_success env _ _ _ henc hext

theorem runLoop_all_completed (env : Env)
    (hconv : ∀ p, ∃ q, env.convert p = Except.ok q)
    (henc : ∀ p, ∃ r, env.encode p = Except.ok r)
    (hext : ∀ mt e, ∃ lg, env.extract mt e = Except.ok lg)
    (images : List String) (s : LoopState) (img : String) (hmem : img ∈ images) :
    (lookupKey (runLoop env s images).progress.completed (pathBase img)).isSome = true := by
  induction images generalizing s with
  | nil => cases hmem
  | cons i rest ih =>
      rw [runLoop_cons]
      rcases List.mem_cons.mp hmem with rfl | hmem'
      · exact runLoop_completed_isSome env rest _ _
          (processFile_success_completed env s img hconv henc hext)
      · exact ih _ hmem'

theorem processFile_disk_sync (env : Env) (s : LoopState) (img : String)
    (hsave : ∀ n, env.saveOk n = true) (h : s.disk = s.progress) :
    (processFile env s img).disk = (processFile env s img).progress := by
  rcases processFile_cases env s img with ⟨_, hid⟩ | ⟨s', msg, heq, _, _⟩ | ⟨s', lg, heq, _, _⟩
  · rw [hid]; exact h
  · rw [heq]; simp [recordFailure, hsave]
  · rw [heq]; simp [recordSuccess, hsave]

theorem runLoop_disk_sync (env : Env) (images : List String) (s : LoopState)
    (hsave : ∀ n, env.saveOk n = true) (h : s.disk = s.progress) :
    (runLoop env s images).disk = (runLoop env s images).progress := by
  induction images generalizing s with
  | nil => exact h
  | cons i rest ih =>
      rw [runLoop_cons]
      exact ih _ (processFile_disk_sync env s i hsave h)

theorem runLoop_filter_base (env : Env) (b : String) (images : List String) (s : LoopState)
    (h : (lookupKey s.progress.completed b).isSome = true) :
    runLoop env s images = runLoop env s (images.filter (fun i => pathBase i != b)) := by
  induction images generalizing s with
  | nil => rfl
  | cons i rest ih =>
      by_cases hib : pathBase i = b
      · have hskip : processFile env s i = s := processFile_skip env s i (by rw [hib]; exact h)
        have hfil : (i :: rest).filter (fun i => pathBase i != b)
            = rest.filter (fun i => pathBase i != b) := by
          simp [List.filter_cons, hib]
        rw [hfil, runLoop_cons, hskip]
        exact ih s h
      · have hfil : (i :: rest).filter (fun i => pathBase i != b)
            = i :: rest.filter (fun i => pathBase i != b) := by
          simp [List.filter_cons, hib]
        rw [hfil, runLoop_cons, runLoop_cons]
        exact ih (processFile env s i) (processFile_completed_isSome env s i b h)

theorem processFile_attempt_events (env : Env) (s : LoopState) (img : String)
    (h : lookupKey s.progress.completed (pathBase img) = none) :
    ∃ rest, (processFile env s img).events
      = s.events ++ Event.printProgress (pathBase img) :: rest := by
  rcases processFile_cases env s img with ⟨hsk, _⟩ | ⟨s', msg, heq, _, hev⟩ | ⟨s', lg, heq, _, hev⟩
  · rw [h] at hsk
    cases hsk
  · refine ⟨[Event.printError (pathBase img) msg], ?_⟩
    rw [heq]
    simp [recordFailure, hev]
  · refine ⟨(if env.saveOk s'.saveCount then [] else [Event.warnSaveFail])
        ++ [Event.printResult lg], ?_⟩
    rw [heq]
    simp [recordSuccess, hev]

/-- Claim C1: with every conversion, encoding, extraction and save
succeeding, a second run of the loop over the same image list, starting
from the checkpoint the first run left on disk, skips every file: no
file is normalized or extracted, nothing succeeds or fails, and the
state — in particular the `completed` mapping — is exactly the loaded
one. -/
theorem batch_idempotent (env : Env) (p0 : Progress) (images : List String)
    (hconv : ∀ p, ∃ q, env.convert p = Except.ok q)
    (henc : ∀ p, ∃ r, env.encode p = Except.ok r)
    (hext : ∀ mt e, ∃ lg, env.extract mt e = Except.ok lg)
    (hsave : ∀ n, env.saveOk n = true) :
    runLoop env (initLoopState (runLoop env (initLoopState p0) images).disk) images
      = initLoopState (runLoop env (initLoopState p0) images).disk
    ∧ (runLoop env (initLoopState (runLoop env (initLoopState p0) images).disk) images).succeeded = 0
    ∧ (runLoop env (initLoopState (runLoop env (initLoopState p0) images).disk) images).failed = 0
    ∧ (runLoop env (initLoopState (runLoop env (initLoopState p0) images).disk) images).convertCalls = 0
    ∧ (runLoop env (initLoopState (runLoop env (initLoopState p0) images).disk) images).extractCalls = 0
    ∧ (runLoop env (initLoopState (runLoop env (initLoopState p0) images).disk) images).progress.completed
        = (runLoop env (initLoopState p0) images).disk.completed := by
  have hdisk : (runLoop env (initLoopState p0) images).disk
      = (runLoop env (initLoopState p0) images).progress :=
    runLoop_disk_sync env images (initLoopState p0) hsave rfl
  have hall : ∀ img ∈ images,
      (lookupKey (initLoopState (runLoop env (initLoopState p0) images).disk).progress.completed
        (pathBase img)).isSome = true := by
    intro img hmem
    show (lookupKey (runLoop env (initLoopState p0) images).disk.completed
      (pathBase img)).isSome = true
    rw [hdisk]
    exact runLoop_all_completed env hconv henc hext images (initLoopState p0) img hmem
  have hrun := runLoop_skip_all env images
    (initLoopState (runLoop env (initLoopState p0) images).disk) hall
  exact ⟨hrun, by rw [hrun]; rfl, by rw [hrun]; rfl, by rw [hrun]; rfl,
         by rw [hrun]; rfl, by rw [hrun]; rfl⟩

/-- Witness for C1: a one-image directory processed twice with the
all-success oracles; the second run is the identity on the loaded
state. -/
theorem batch_idempotent_witness :
    runLoop envAllOk (initLoopState (runLoop envAllOk (initLoopState ⟨[], []⟩) ["a.jpg"]).disk) ["a.jpg"]
      = initLoopState (runLoop envAllOk (initLoopState ⟨[], []⟩) ["a.jpg"]).disk
    ∧ (runLoop envAllOk (initLoopState (runLoop envAllOk (initLoopState ⟨[], []⟩) ["a.jpg"]).disk) ["a.jpg"]).succeeded = 0
    ∧ (runLoop envAllOk (initLoopState (runLoop envAllOk (initLoopState ⟨[], []⟩) ["a.jpg"]).disk) ["a.jpg"]).failed = 0
    ∧ (runLoop envAllOk (initLoopState (runLoop envAllOk (initLoopState ⟨[], []⟩) ["a.jpg"]).disk) ["a.jpg"]).convertCalls = 0
    ∧ (runLoop envAllOk (initLoopState (runLoop envAllOk (initLoopState ⟨[], []⟩) ["a.jpg"]).disk) ["a.jpg"]).extractCalls = 0
    ∧ (runLoop envAllOk (initLoopState (runLoop envAllOk (initLoopState ⟨[], []⟩) ["a.jpg"]).disk) ["a.jpg"]).progress.completed
        = (runLoop envAllOk (initLoopState ⟨[], []⟩) ["a.jpg"]).disk.completed :=
  batch_idempotent envAllOk ⟨[], []⟩ ["a.jpg"]
    (fun p => ⟨p ++ ".tmp.jpg", rfl⟩)
    (fun _ => ⟨("image/jpeg", "x"), rfl⟩)
    (fun _ _ => ⟨logW, rfl⟩)
    (fun _ => rfl)

/-- Claim C2: a scanned file whose base name is in the loaded
`completed` mapping is skipped — its iteration is the identity on the
loop state, and the whole run is unchanged if every occurrence of that
base name is dropped from the scan list; a file in `errors` but not in
`completed` is not skipped: its iteration prints progress and attempts
the pipeline. -/
theorem checkpoint_skip_retry (env : Env) (s : LoopState) (img : String) :
    ((lookupKey s.progress.completed (pathBase img)).isSome = true →
        processFile env s img = s
        ∧ ∀ images : List String,
            runLoop env s images
              = runLoop env s (images.filter (fun i => pathBase i != pathBase img)))
    ∧ ((lookupKey s.progress.errors (pathBase img)).isSome = true →
        lookupKey s.progress.completed (pathBase img) = none →
        ∃ rest, (processFile env s img).events
          = s.events ++ Event.printProgress (pathBase img) :: rest) := by
  constructor
  · intro h
    exact ⟨processFile_skip env s img h,
           fun images => runLoop_filter_base env (pathBase img) images s h⟩
  · intro _ hn
    exact processFile_attempt_events env s img hn

/-- Witness for C2: with "a.jpg" completed and "b.jpg" in errors,
"a.jpg" is skipped (and dropping it from the scan list changes
nothing), while "b.jpg" is attempted. -/
theorem checkpoint_skip_retry_witness :
    (processFile envAllOk stateW "a.jpg" = stateW
      ∧ runLoop envAllOk stateW ["a.jpg", "b.jpg"]
          = runLoop envAllOk stateW
              (["a.jpg", "b.jpg"].filter (fun i => pathBase i != pathBase "a.jpg")))
    ∧ (∃ rest, (processFile envAllOk stateW "b.jpg").events
        = stateW.events ++ Event.printProgress (pathBase "b.jpg") :: rest) := by
  constructor
  · have h := (checkpoint_skip_retry envAllOk stateW "a.jpg").1 (by decide)
    exact ⟨h.1, h.2 ["a.jpg", "b.jpg"]⟩
  · exact (checkpoint_skip_retry envAllOk stateW "b.jpg").2 (by decide) (by decide)

/-- Claim C3 is false of the code: `main` registers `defer
os.Remove(jpgPath)` inside the loop, so the temp files of successfully
converted HEIC images are removed only when `main` returns (and never
on an `os.Exit` path), not after each image is read.  Evaluated on a
directory of two HEIC files with every conversion and extraction
succeeding: after the first file's iteration is over, and still after
the whole loop, both temp files exist — no removal ran during the
loop, both removals sit in the deferred list. -/
theorem temp_cleanup_deferred :
    (runLoop envAllOk (initLoopState ⟨[], []⟩) ["a.heic"]).tempsCreated = ["a.heic.tmp.jpg"]
    ∧ (runLoop envAllOk (initLoopState ⟨[], []⟩) ["a.heic"]).tempsRemoved = []
    ∧ (runLoop envAllOk (initLoopState ⟨[], []⟩) ["a.heic", "b.heic"]).succeeded = 2
    ∧ (runLoop envAllOk (initLoopState ⟨[], []⟩) ["a.heic", "b.heic"]).tempsCreated
        = ["a.heic.tmp.jpg", "b.heic.tmp.jpg"]
    ∧ (runLoop envAllOk (initLoopState ⟨[], []⟩) ["a.heic", "b.heic"]).tempsRemoved = []
    ∧ (runLoop envAllOk (initLoopState ⟨[], []⟩) ["a.heic", "b.heic"]).deferredRemoves
        = ["a.heic.tmp.jpg", "b.heic.tmp.jpg"] := by
  exact ⟨by decide, by decide, by decide, by decide, by decide, by decide⟩

/-- Counterexample to C4 as stated: in a run where extraction fails for
"a.jpg" and every `saveProgress` call fails, the failure mark is
followed by a save (one save call happened and it failed), yet the
event list contains no save warning — the save error after a failure
mark is silently dropped. -/
theorem save_warning_counterexample :
    (runLoop envExtractFailSaveFail (initLoopState ⟨[], []⟩) ["a.jpg"]).saveCount = 1
    ∧ envExtractFailSaveFail.saveOk 0 = false
    ∧ (runLoop envExtractFailSaveFail (initLoopState ⟨[], []⟩) ["a.jpg"]).events
        = [Event.printProgress "a.jpg", Event.printError "a.jpg" "boom"] := by
  exact ⟨by decide, rfl, by decide⟩

/-- Claim C4 as amended: every mark operation is immediately followed
by a save and no save failure aborts the batch, but only the save
after a success mark surfaces its failure as a warning; the save
result after a failure mark is discarded without any warning. -/
theorem mark_save_discipline (env : Env) (s : LoopState) (b m : String) (lg : ReadingLog) :
    (recordFailure env s b m).saveCount = s.saveCount + 1
    ∧ (recordFailure env s b m).events = s.events ++ [Event.printError b m]
    ∧ (recordSuccess env s b lg).saveCount = s.saveCount + 1
    ∧ (recordSuccess env s b lg).events
        = s.events ++ (if env.saveOk s.saveCount then [] else [Event.warnSaveFail])
            ++ [Event.printResult lg]
    ∧ ∀ (img : String) (rest : List String),
        runLoop env s (img :: rest) = runLoop env (processFile env s img) rest :=
  ⟨rfl, rfl, rfl, rfl, fun _ _ => rfl⟩

/-- Witness for C4's amended statement at a concrete state: the failure
mark's save fails yet only the error print is emitted, while the
success mark's failing save emits the warning. -/
theorem mark_save_discipline_witness :
    (recordFailure envExtractFailSaveFail stateW "c.jpg" "boom").saveCount = 1
    ∧ (recordFailure envExtractFailSaveFail stateW "c.jpg" "boom").events
        = [Event.printError "c.jpg" "boom"]
    ∧ (recordSuccess envExtractFailSaveFail stateW "c.jpg" logW).events
        = [Event.warnSaveFail, Event.printResult logW] := by
  have h := mark_save_discipline envExtractFailSaveFail stateW "c.jpg" "boom" logW
  refine ⟨h.1, ?_, ?_⟩
  · rw [h.2.1]
    decide
  · rw [h.2.2.2.1]
    decide

/-- Claim C5: `main` exits 1 exactly when the directory cannot be read,
no images are found, the `completed` mapping is empty after the loop,
or the CSV cannot be written; it exits 0 otherwise, and in the
empty-`completed` case the CSV write is never attempted. -/
theorem exit_codes (msg : String) (images : List String) (c : FileContent)
    (env : Env) (csvOk : Bool) :
    (mainRun (Except.error msg) c env csvOk).exitCode = 1
    ∧ ((mainRun (Except.ok images) c env csvOk).exitCode = 1 ↔
        images = []
        ∨ (runLoop env (initLoopState (loadProgress c)) images).progress.completed = []
        ∨ csvOk = false)
    ∧ ((mainRun (Except.ok images) c env csvOk).exitCode = 0 ↔
        ¬(images = []
          ∨ (runLoop env (initLoopState (loadProgress c)) images).progress.completed = []
          ∨ csvOk = false))
    ∧ ((runLoop env (initLoopState (loadProgress c)) images).progress.completed = [] →
        (mainRun (Except.ok images) c env csvOk).csvAttempted = false) := by
  refine ⟨rfl, ?_, ?_, ?_⟩ <;>
  · by_cases h1 : images = []
    · subst h1
      simp [mainRun]
    · have hlen : ¬(images.length = 0) := by simpa [List.length_eq_zero] using h1
      by_cases h2 : (runLoop env (initLoopState (loadProgress c)) images).progress.completed = []
      · have hlen2 : (runLoop env (initLoopState (loadProgress c)) images).progress.completed.length = 0 := by
          simp [h2]
        simp [mainRun, hlen, hlen2, h1, h2]
      · have hlen2 : ¬((runLoop env (initLoopState (loadProgress c)) images).progress.completed.length = 0) := by
          simpa [List.length_eq_zero] using h2
        cases csvOk with
        | true => simp [mainRun, hlen, hlen2, h1, h2]
        | false => simp [mainRun, hlen, hlen2, h1, h2]

/-- Witness for C5: a directory-read error exits 1; a run whose only
file fails extraction has an empty `completed` mapping, exits 1, and
never attempts the CSV. -/
theorem exit_codes_witness :
    (mainRun (Except.error "io") FileContent.absent envExtractFailSaveFail true).exitCode = 1
    ∧ (mainRun (Except.ok ["a.jpg"]) FileContent.absent envExtractFailSaveFail true).exitCode = 1
    ∧ (mainRun (Except.ok ["a.jpg"]) FileContent.absent envExtractFailSaveFail true).csvAttempted = false := by
  refine ⟨(exit_codes "io" ["a.jpg"] FileContent.absent envExtractFailSaveFail true).1, ?_, ?_⟩
  · exact (exit_codes "io" ["a.jpg"] FileContent.absent envExtractFailSaveFail true).2.1.mpr
      (Or.inr (Or.inl (by decide)))
  · exact (exit_codes "io" ["a.jpg"] FileContent.absent envExtractFailSaveFail true).2.2.2 (by decide)

/-- Claim C6: in every exported row the Total Minutes column (the last
of the row's eleven cells, under the header cell "Total Minutes") is
the sum of all entries' minutes — entries with out-of-range dates and
duplicate-date entries included, absent days contributing nothing. -/
theorem export_total (log : ReadingLog) :
    (csvRow log).getLast? = some (toString ((log.ReadingEntries.map (fun e => e.Minutes)).sum))
    ∧ (csvRow log).length = 11
    ∧ csvHeader.getLast? = some "Total Minutes"
    ∧ csvHeader.length = 11 := by
  refine ⟨?_, rfl, rfl, rfl⟩
  simp [csvRow, sumMinutes, foldl_add_minutes]

/-- Claim C7: a date cell holds the decimal minutes of the first entry
whose date matches the column when those minutes are positive, and is
empty when that first matching entry has minutes zero or when no entry
matches; a second entry with the same date is ignored. -/
theorem cell_first_match (entries : List ReadingEntry) (date : String) (e : ReadingEntry) :
    (entries.find? (fun x => x.Date == date) = some e → 0 < e.Minutes →
        formatMinutes entries date = toString e.Minutes)
    ∧ (entries.find? (fun x => x.Date == date) = some e → e.Minutes = 0 →
        formatMinutes entries date = "")
    ∧ (entries.find? (fun x => x.Date == date) = none →
        formatMinutes entries date = "") := by
  induction entries with
  | nil => exact ⟨fun h => by simp [List.find?] at h,
                  fun h => by simp [List.find?] at h,
                  fun _ => rfl⟩
  | cons x rest ih =>
      by_cases hx : x.Date = date
      · refine ⟨fun hf hpos => ?_, fun hf hz => ?_, fun hf => ?_⟩
        · rw [List.find?_cons_of_pos _ (by simp [hx])] at hf
          obtain rfl : x = e := by simpa using hf
          simp [formatMinutes, hx, hpos]
        · rw [List.find?_cons_of_pos _ (by simp [hx])] at hf
          obtain rfl : x = e := by simpa using hf
          simp [formatMinutes, hx, hz]
        · rw [List.find?_cons_of_pos _ (by simp [hx])] at hf
          exact Option.noConfusion hf
      · refine ⟨fun hf hpos => ?_, fun hf hz => ?_, fun hf => ?_⟩
        · rw [List.find?_cons_of_neg _ (by simp [hx])] at hf
          simpa [formatMinutes, hx] using ih.1 hf hpos
        · rw [List.find?_cons_of_neg _ (by simp [hx])] at hf
          simpa [formatMinutes, hx] using ih.2.1 hf hz
        · rw [List.find?_cons_of_neg _ (by simp [hx])] at hf
          simpa [formatMinutes, hx] using ih.2.2 hf

/-- Witness for C7 on a record with a duplicate 1/30 date: the first
match (10 minutes) renders and the second (20 minutes) is ignored. -/
theorem cell_first_match_witness :
    entriesW.find? (fun x => x.Date == "1/30") = some entryW
    ∧ 0 < entryW.Minutes
    ∧ formatMinutes entriesW "1/30" = "10" := by
  refine ⟨by decide, by decide, ?_⟩
  exact (cell_first_match entriesW "1/30" entryW).1 (by decide) (by decide)

/-- Claim C8: marking a file successful inserts its record into
`completed` and removes the file from `errors`, so it is never in both. -/
theorem success_overwrite (env : Env) (s : LoopState) (b : String) (log : ReadingLog) :
    lookupKey (recordSuccess env s b log).progress.completed b = some log
    ∧ lookupKey (recordSuccess env s b log).progress.errors b = none
    ∧ (((lookupKey (recordSuccess env s b log).progress.completed b).isSome
        && (lookupKey (recordSuccess env s b log).progress.errors b).isSome) = false) := by
  refine ⟨?_, ?_, ?_⟩
  · simp [recordSuccess, lookupKey_insertKey_self]
  · simp [recordSuccess, lookupKey_eraseKey_self]
  · simp [recordSuccess, lookupKey_eraseKey_self]

/-- Counterexample to C9 as stated: when the checkpoint file is absent,
`loadProgress` returns a fresh empty state but prints no warning (the
Bool component is `false`), while the claim asserts a warning for every
absent-or-unparsable content. -/
theorem load_silent_on_absent :
    loadProgressGo FileContent.absent = (freshProgressGo, false)
    ∧ freshProgressGo = ⟨some [], some []⟩ := ⟨rfl, rfl⟩

/-- Claim C9 as amended: load never fails the caller — an absent file
yields a fresh empty state silently, an unparsable file yields a fresh
empty state with a warning, and a parsable file yields the parsed
state (null or missing mappings becoming empty). -/
theorem load_total_behavior (pp : ParsedProgress) :
    loadProgress FileContent.absent = ⟨[], []⟩
    ∧ (loadProgressGo FileContent.absent).2 = false
    ∧ loadProgress FileContent.unparsable = ⟨[], []⟩
    ∧ (loadProgressGo FileContent.unparsable).2 = true
    ∧ loadProgress (FileContent.parsed pp) = ⟨pp.completedField.getD [], pp.errorsField.getD []⟩
    ∧ (loadProgressGo (FileContent.parsed pp)).2 = false := by
  exact ⟨rfl, rfl, rfl, rfl, rfl, rfl⟩

/-- Claim C10: for every checkpoint-file content — including valid JSON
with null or missing mappings — the loaded state has non-nil `completed`
and `errors` maps, so the insertions performed by the success and
failure marks are always defined. -/
theorem mark_operations_defined (c : FileContent) (f m : String) (r : ReadingLog) :
    ((loadProgressGo c).1.completed).isSome = true
    ∧ ((loadProgressGo c).1.errors).isSome = true
    ∧ (goMapInsert (loadProgressGo c).1.completed f r).isSome = true
    ∧ (goMapInsert (loadProgressGo c).1.errors f m).isSome = true := by
  cases c <;> simp [loadProgressGo, freshProgressGo, goMapInsert]

end RLP
